import Mathlib

/-!
Verification of the Book Tracer console application (src/main.cpp).

The C++ source is shallowly embedded below.  Pure helpers (ISBN codec,
progress metrics, CSV quoting/parsing, numeric coercion) become Lean
functions over `String` / `List Char` / `Int`; the SQLite-backed record
store becomes explicit state passing over a `Store` structure whose
`books` list models the `books` table and whose `dailyRate` field models
the `settings` row with key `daily_rate`.  C++ `int` values are modelled
as `Int`, with the `std::stoi` out-of-range behaviour made explicit where
the code catches it.  File and network I/O are modelled by passing the
file contents / parsed HTTP responses as explicit arguments.
-/

namespace BookTracer

/-- Book record (struct `Book`, main.cpp lines 24-32).
`status`: 0 To-Read, 1 Reading, 2 Finished. -/
structure Book where
  id : Int
  title : String
  author : String
  totalPages : Int
  currentPage : Int
  status : Int
  isbn : String
deriving Repr, DecidableEq

/-- Progress metric `daysToFinish` (main.cpp lines 59-64).
C++ `/` on positive ints truncates toward zero, i.e. `Int.tdiv`. -/
def daysToFinish (b : Book) (dailyRate : Int) : Option Int :=
  if dailyRate ≤ 0 ∨ b.totalPages ≤ b.currentPage then none
  else
    let remaining := b.totalPages - b.currentPage
    some ((remaining + dailyRate - 1).tdiv dailyRate)

/-! Decimal printing of machine integers, modelling `operator<<(int)` and
`std::to_string(int)`: minimal decimal digits, `-` sign for negatives.
Written with explicit fuel so that the definition is structural and
kernel-reducible. -/

/-- Character for a decimal digit `n < 10`. -/
def digitChar (n : Nat) : Char := Char.ofNat (48 + n)

/-- Digit accumulation: produces the decimal digits of `n` in front of
`acc`, provided `fuel > n`. -/
def natToStrAux : Nat → Nat → List Char → List Char
  | 0, _, acc => acc
  | fuel+1, n, acc =>
    if n < 10 then digitChar n :: acc
    else natToStrAux fuel (n / 10) (digitChar (n % 10) :: acc)

/-- Decimal digit string of a natural number. -/
def natToStr (n : Nat) : List Char := natToStrAux (n+1) n []

/-- Decimal representation of a (machine) integer, as a char list. -/
def intToStrL (v : Int) : List Char :=
  if v < 0 then '-' :: natToStr (-v).toNat else natToStr v.toNat

/-- Decimal representation of a (machine) integer. -/
def intToStr (v : Int) : String := String.mk (intToStrL v)

/-! Model of `std::stoi` with the catching wrapper
`SqliteStorage::strToIntSafe` (main.cpp lines 482-485): skip leading
whitespace, optional single sign, then a non-empty run of decimal digits
(trailing junk ignored); no digits → `std::invalid_argument` → 0;
value outside `int` range → `std::out_of_range` → 0. -/

/-- Whitespace as classified by C `isspace` in the default locale. -/
def cIsSpace (c : Char) : Bool :=
  (c == ' ') || (c == '\t') || (c == '\n') ||
  (c == Char.ofNat 11) || (c == Char.ofNat 12) || (c == '\r')

/-- Value of a run of decimal digit characters (most significant first). -/
def digitsToNat (l : List Char) : Nat :=
  l.foldl (fun a c => 10 * a + (c.toNat - 48)) 0

/-- Parse an unsigned digit run at the head of `l`; `none` if no digit. -/
def stoiCore (l : List Char) : Option Int :=
  let ds := l.takeWhile Char.isDigit
  if ds.isEmpty then none else some (digitsToNat ds)

/-- Parse per `strtol`: whitespace, optional sign, digits. -/
def stoiParse (l : List Char) : Option Int :=
  match l.dropWhile cIsSpace with
  | [] => none
  | c :: r =>
    if c = '+' then stoiCore r
    else if c = '-' then (stoiCore r).map (fun v => -v)
    else stoiCore (c :: r)

/-- `SqliteStorage::strToIntSafe` (main.cpp lines 482-485). -/
def strToIntSafe (s : String) : Int :=
  match stoiParse s.toList with
  | none => 0
  | some v => if v < -(2^31 : Int) ∨ (2^31 - 1 : Int) < v then 0 else v

/-! ISBN utilities (main.cpp lines 88-112). -/

/-- Character filter of `onlyDigitsX` (main.cpp lines 88-92). -/
def onlyDigitsXChars : List Char → List Char
  | [] => []
  | c :: t =>
    if c.isDigit ∨ c = 'X' ∨ c = 'x' then
      (if c = 'x' then 'X' else c) :: onlyDigitsXChars t
    else onlyDigitsXChars t

/-- `onlyDigitsX` (main.cpp lines 88-92). -/
def onlyDigitsX (s : String) : String := String.mk (onlyDigitsXChars s.toList)

/-- Weighted digit sum of `isbn10to13` (main.cpp lines 99-103):
index `i` from `start`, weight 1 on even index, 3 on odd;
`core[i]-'0'` is modelled as `c.toNat - 48`. -/
def isbnWeightedSum : List Char → Nat → Nat
  | [], _ => 0
  | c :: t, i =>
    (if i % 2 = 0 then c.toNat - 48 else 3 * (c.toNat - 48)) + isbnWeightedSum t (i+1)

/-- `isbn10to13` (main.cpp lines 97-106). -/
def isbn10to13 (s10 : String) : String :=
  let core := "978" ++ s10.take 9
  let sum := isbnWeightedSum core.toList 0
  let cd := (10 - sum % 10) % 10
  core ++ String.mk (natToStr cd)

/-- `normalizeIsbn` (main.cpp lines 107-112). -/
def normalizeIsbn (input : String) : String :=
  let s := onlyDigitsX input
  if s.length = 13 then s
  else if s.length = 10 then isbn10to13 s
  else ""

/-- Specification-side restatement of the ISBN-10 → ISBN-13 conversion,
following the spec's wording: take the first 9 characters, prepend "978",
and append the check digit `c = (10 - sum % 10) % 10` where `sum` weights
even zero-based indices by 1 and odd ones by 3. -/
def isbn10to13Spec (t : String) : String :=
  let core := "978" ++ t.take 9
  let sum := (core.toList.enum.map
    (fun p => (if p.1 % 2 = 0 then 1 else 3) * (p.2.toNat - 48))).sum
  core ++ String.mk (natToStr ((10 - sum % 10) % 10))

/-! CSV quoting and parsing (main.cpp lines 487-516). -/

/-- Body of `csvQuote`'s loop: double every embedded quote character. -/
def csvEsc : List Char → List Char
  | [] => []
  | c :: t => if c = '"' then '"' :: '"' :: csvEsc t else c :: csvEsc t

/-- `csvQuote` (main.cpp lines 487-496): wrap in quotes, doubling
embedded quotes. -/
def csvQuote (s : String) : String := String.mk ('"' :: csvEsc s.toList ++ ['"'])

/-- Parser state of the `csvParse` loop: outside quotes, inside quotes,
or inside quotes having just read a `"` (the C++ code resolves this case
with a one-character lookahead; consuming one character per step instead
is the same automaton). -/
inductive CsvMode where
  | outQ
  | inQ
  | afterQ
deriving Repr, DecidableEq

/-- Loop of `csvParse` (main.cpp lines 497-516).  `cur` is the field
being built, `cols` the completed fields.  Outside quotes a comma ends
the field and a quote enters quote mode; inside quotes a doubled quote
becomes a literal quote and a single quote leaves quote mode. -/
def csvGo (mode : CsvMode) (cur : List Char) (cols : List (List Char)) :
    List Char → List (List Char)
  | [] => cols ++ [cur]
  | c :: rest =>
    match mode with
    | .outQ =>
      if c = ',' then csvGo .outQ [] (cols ++ [cur]) rest
      else if c = '"' then csvGo .inQ cur cols rest
      else csvGo .outQ (cur ++ [c]) cols rest
    | .inQ =>
      if c = '"' then csvGo .afterQ cur cols rest
      else csvGo .inQ (cur ++ [c]) cols rest
    | .afterQ =>
      if c = '"' then csvGo .inQ (cur ++ ['"']) cols rest
      else if c = ',' then csvGo .outQ [] (cols ++ [cur]) rest
      else csvGo .outQ (cur ++ [c]) cols rest

/-- `csvParse` (main.cpp lines 497-516). -/
def csvParse (l : List Char) : List String :=
  (csvGo .outQ [] [] l).map String.mk

/-- Lines read by repeated `std::getline` from a character stream:
split at newline characters; a trailing fragment without a final newline
is still a line; reading at end-of-file fails (no extra empty line after
a final newline; an empty stream has no lines). -/
def getLines : List Char → List (List Char)
  | [] => []
  | c :: rest =>
    if c = '\n' then [] :: getLines rest
    else
      match getLines rest with
      | [] => [[c]]
      | l :: ls => (c :: l) :: ls

/-- Boolean substring test, modelling `std::string::find(needle) != npos`. -/
def containsSub (needle : List Char) : List Char → Bool
  | [] => needle.isPrefixOf []
  | c :: t => needle.isPrefixOf (c :: t) || containsSub needle t

/-! The SQLite record store (class `SqliteStorage`, main.cpp lines
233-517).  `books` models the `books` table contents, `nextId` the
AUTOINCREMENT counter (next rowid to be assigned, never reused), and
`dailyRate` the `settings` row with key `daily_rate` (the only key the
program uses). -/

structure Store where
  nextId : Int
  books : List Book
  dailyRate : Option String
deriving Repr, DecidableEq

/-- Fresh store backed by an empty database file. -/
def emptyStore : Store := ⟨1, [], none⟩

/-- Comparison used to model `ORDER BY id ASC`. -/
def idLe (a b : Book) : Prop := a.id ≤ b.id

instance : DecidableRel idLe := fun a b => Int.decLe a.id b.id

instance : IsTotal Book idLe := ⟨fun a b => le_total a.id b.id⟩

instance : IsTrans Book idLe := ⟨fun _ _ _ h h' => le_trans h h'⟩

/-- Rows in `ORDER BY id ASC` order. -/
def sortById (l : List Book) : List Book := List.insertionSort idLe l

namespace SqliteStorage

/-- `SqliteStorage::add` (main.cpp lines 273-289): the id column is not
bound, so AUTOINCREMENT assigns the next id; returns the new id. -/
def add (st : Store) (b : Book) : Store × Int :=
  ({ st with books := st.books ++ [{ b with id := st.nextId }],
             nextId := st.nextId + 1 }, st.nextId)

/-- `SqliteStorage::updateProgress` (main.cpp lines 291-300):
`UPDATE books SET current_page=?, status=? WHERE id=?`. -/
def updateProgress (st : Store) (id currentPage status : Int) : Store × Bool :=
  ({ st with books := st.books.map (fun b =>
      if b.id = id then { b with currentPage := currentPage, status := status }
      else b) }, true)

/-- `SqliteStorage::updateStatus` (main.cpp lines 302-311):
`UPDATE books SET status=?, current_page = CASE WHEN ?=2 THEN total_pages
ELSE current_page END WHERE id=?`. -/
def updateStatus (st : Store) (id status : Int) : Store × Bool :=
  ({ st with books := st.books.map (fun b =>
      if b.id = id then
        { b with status := status,
                 currentPage := if status = 2 then b.totalPages else b.currentPage }
      else b) }, true)

/-- `SqliteStorage::remove` (main.cpp lines 313-320). -/
def remove (st : Store) (id : Int) : Store × Bool :=
  ({ st with books := st.books.filter (fun b => !(b.id == id)) }, true)

/-- `SqliteStorage::list` (main.cpp lines 344-366): optional status
filter, `ORDER BY id ASC`. -/
def list (st : Store) (statusFilter : Option Int) : List Book :=
  (sortById st.books).filter (fun b =>
    match statusFilter with
    | none => true
    | some s => b.status == s)

/-- ASCII lower-casing of one character: models both C `tolower` in the
default locale and SQLite's `lower()`, which fold only A-Z. -/
def lowerC (c : Char) : Char :=
  if 'A' ≤ c ∧ c ≤ 'Z' then Char.ofNat (c.toNat + 32) else c

/-- ASCII lower-casing of a character list. -/
def lowerL (l : List Char) : List Char := l.map lowerC

/-- SQLite `LIKE` matching with explicit fuel (every step consumes one
char of pattern or subject, so `|p| + |s| + 1` fuel suffices):
`%` matches any sequence, `_` any single char, anything else itself,
ASCII-case-insensitively. -/
def likeMatchAux : Nat → List Char → List Char → Bool
  | 0, _, _ => false
  | _+1, [], s => s.isEmpty
  | fuel+1, a :: p, s =>
    if a = '%' then
      likeMatchAux fuel p s ||
        (match s with
         | [] => false
         | _ :: s' => likeMatchAux fuel (a :: p) s')
    else if a = '_' then
      match s with
      | [] => false
      | _ :: s' => likeMatchAux fuel p s'
    else
      match s with
      | [] => false
      | c :: s' => (lowerC a = lowerC c) && likeMatchAux fuel p s'

/-- SQLite `LIKE` (no ESCAPE clause). -/
def likeMatch (p s : List Char) : Bool :=
  likeMatchAux (p.length + s.length + 1) p s

/-- `SqliteStorage::search` (main.cpp lines 368-394): pattern
`"%" + q + "%"` lower-cased, matched with `LIKE` against `lower(title)`
and `lower(author)`, `ORDER BY id ASC`. -/
def search (st : Store) (q : String) : List Book :=
  let pat := lowerL ('%' :: q.toList ++ ['%'])
  (sortById st.books).filter (fun b =>
    likeMatch pat (lowerL b.title.toList) || likeMatch pat (lowerL b.author.toList))

/-- `SqliteStorage::getDailyRate` (main.cpp lines 398-409): read the
`daily_rate` setting, `std::stoi` it (exceptions leave 0), return
`max(0, rate)`. -/
def getDailyRate (st : Store) : Int :=
  max 0 (match st.dailyRate with
         | none => 0
         | some v => strToIntSafe v)

/-- `SqliteStorage::setDailyRate` (main.cpp lines 411-421): upsert
`std::to_string(std::max(0, rate))` under key `daily_rate`. -/
def setDailyRate (st : Store) (rate : Int) : Store × Bool :=
  ({ st with dailyRate := some (intToStr (max 0 rate)) }, true)

/-- One exported data row (`exportCsv` body, main.cpp lines 429-437). -/
def lineOf (b : Book) : String :=
  intToStr b.id ++ "," ++ csvQuote b.title ++ "," ++ csvQuote b.author ++ "," ++
  intToStr b.totalPages ++ "," ++ intToStr b.currentPage ++ "," ++
  intToStr b.status ++ "," ++ csvQuote b.isbn

/-- Exported data rows, each terminated by a newline. -/
def csvRows : List Book → String
  | [] => ""
  | b :: t => lineOf b ++ "\n" ++ csvRows t

/-- `SqliteStorage::exportCsv` (main.cpp lines 424-439): header line then
one row per record of `list(std::nullopt)`.  The file contents are
returned instead of written to disk. -/
def exportCsv (st : Store) : String :=
  "id,title,author,totalPages,currentPage,status,isbn\n" ++ csvRows (list st none)

/-- `std::clamp(v, lo, hi)`. -/
def clampInt (v lo hi : Int) : Int := if v < lo then lo else if hi < v then hi else v

/-- Book built from a parsed CSV row with ≥ 7 columns (`importCsv` body,
main.cpp lines 458-465): id column ignored, numeric fields coerced by
`strToIntSafe` and clamped. -/
def rowBook (cols : List String) : Book :=
  let tp := max 0 (strToIntSafe (cols.getD 3 ""))
  { id := 0,
    title := cols.getD 1 "",
    author := cols.getD 2 "",
    totalPages := tp,
    currentPage := clampInt (strToIntSafe (cols.getD 4 "")) 0 tp,
    status := clampInt (strToIntSafe (cols.getD 5 "")) 0 2,
    isbn := cols.getD 6 "" }

/-- Import loop of `importCsv` (main.cpp lines 455-467) with storage
fault injection: `faults k = true` means the `k`-th attempted `INSERT`
fails at `sqlite3_step` (e.g. an I/O error), which `add`'s caller
ignores — the row is simply not stored and the loop continues.  Rows
with fewer than 7 parsed columns are skipped. -/
def importRows (faults : Nat → Bool) : List (List Char) → Nat → Store → Store
  | [], _, st => st
  | l :: ls, k, st =>
    let cols := csvParse l
    if cols.length < 7 then importRows faults ls k st
    else if faults k then importRows faults ls (k+1) st
    else importRows faults ls (k+1) (add st (rowBook cols)).1

/-- `SqliteStorage::importCsv` (main.cpp lines 440-470) with storage
fault injection.  The file contents are passed as a string; `false` is
returned when the first `getline` fails (empty file).  If the first line
does not contain `"id,"` the stream is rewound and the first line is
processed as data.  `BEGIN TRANSACTION` / `COMMIT` run through `exec`,
which discards any error, and no ROLLBACK is ever issued, so rows
inserted before/after a mid-batch failure remain committed. -/
def importCsvF (file : String) (faults : Nat → Bool) (st : Store) : Store × Bool :=
  match getLines file.toList with
  | [] => (st, false)
  | l0 :: rest =>
    let dataLines := if containsSub ("id,".toList) l0 then rest else l0 :: rest
    (importRows faults dataLines 0 st, true)

/-- `SqliteStorage::importCsv` without storage failures. -/
def importCsv (file : String) (st : Store) : Store × Bool :=
  importCsvF file (fun _ => false) st

end SqliteStorage

/-! Metadata lookup chain (`lookupIsbn`, main.cpp lines 184-230).
Network responses are passed explicitly: `primary` is the parsed Open
Library response (`none` = HTTP failure or JSON parse failure; fields
are `""` when the `title` / `by_statement` keys are absent), `secondary`
is the first Google Books volume (`none` = HTTP failure, parse failure
or empty `items`; fields are `""` when absent), and `useGoogleBooks` is
the run-scoped `g_useGoogleBooks` flag. -/

structure LookupResult where
  title : String
  author : String
deriving Repr, DecidableEq

structure LookupEnv where
  primary : Option LookupResult
  useGoogleBooks : Bool
  secondary : Option LookupResult
deriving Repr, DecidableEq

/-- Fall-through to the Google Books step of `lookupIsbn`
(main.cpp lines 207-227): queried only when `g_useGoogleBooks` is set;
the first volume is accepted when its title or author is non-empty. -/
def lookupSecondary (env : LookupEnv) : Option LookupResult × Bool :=
  if env.useGoogleBooks then
    match env.secondary with
    | some r =>
      (if ¬ (r.title = "") ∨ ¬ (r.author = "") then some r else none, true)
    | none => (none, true)
  else (none, false)

/-- `lookupIsbn` (main.cpp lines 185-230).  The second component records
whether the secondary (Google Books) source was queried. -/
def lookupIsbn (env : LookupEnv) (rawIsbn : String) : Option LookupResult × Bool :=
  if normalizeIsbn rawIsbn = "" then (none, false)
  else
    match env.primary with
    | some r =>
      if ¬ (r.title = "") then (some r, false)
      else lookupSecondary env
    | none => lookupSecondary env

/-! Specification-side notions used to state the claims. -/

/-- A record equal "except for the id": the id field zeroed out. -/
def stripId (b : Book) : Book := { b with id := 0 }

/-- Case-insensitive (ASCII) substring containment, the spec's notion of
a search match. -/
def containsCI (q s : String) : Prop :=
  SqliteStorage.lowerL q.toList <:+: SqliteStorage.lowerL s.toList

instance (q s : String) : Decidable (containsCI q s) :=
  List.decidableInfix _ _

/-- Record-set well-formedness needed for an exact CSV round-trip: the
numeric fields are in the ranges the import clamps to (and representable
as C++ `int`s, as they are in the program), and the text fields contain
no newline, which the CSV writer does not escape. -/
def GoodBook (b : Book) : Prop :=
  0 ≤ b.totalPages ∧ b.totalPages < 2^31 ∧
  0 ≤ b.currentPage ∧ b.currentPage ≤ b.totalPages ∧
  0 ≤ b.status ∧ b.status ≤ 2 ∧
  '\n' ∉ b.title.toList ∧ '\n' ∉ b.author.toList ∧ '\n' ∉ b.isbn.toList

instance (b : Book) : Decidable (GoodBook b) := by
  unfold GoodBook; infer_instance

/-- Books re-numbered with consecutive fresh ids starting at `n`, the
shape an import into an empty store produces. -/
def reassignFrom (n : Int) : List Book → List Book
  | [] => []
  | b :: t => { b with id := n } :: reassignFrom (n+1) t

/-- Characters that can occur in an exported CSV line for `b`: chars of
its text fields, decimal digits, minus sign, comma, quote. -/
def lineCharOk (b : Book) (c : Char) : Prop :=
  c ∈ b.title.toList ∨ c ∈ b.author.toList ∨ c ∈ b.isbn.toList ∨
  c.isDigit = true ∨ c = '-' ∨ c = ',' ∨ c = '"'

/-! Lemmas about decimal printing and `stoi` parsing. -/

theorem digitChar_toNat {n : Nat} (h : n < 10) : (digitChar n).toNat = 48 + n := by
  interval_cases n <;> decide

theorem digitChar_isDigit {n : Nat} (h : n < 10) : (digitChar n).isDigit = true := by
  interval_cases n <;> decide

theorem isDigit_toNat {c : Char} (h : c.isDigit = true) :
    48 ≤ c.toNat ∧ c.toNat ≤ 57 := by
  simp [Char.isDigit] at h
  exact h

theorem isDigit_facts {c : Char} (h : c.isDigit = true) :
    c ≠ ',' ∧ c ≠ '"' ∧ c ≠ '\n' ∧ c ≠ '+' ∧ c ≠ '-' ∧ cIsSpace c = false := by
  obtain ⟨h1, h2⟩ := isDigit_toNat h
  refine ⟨?_, ?_, ?_, ?_, ?_, ?_⟩
  · rintro rfl; simp at h1
  · rintro rfl; simp at h1
  · rintro rfl; simp at h1
  · rintro rfl; simp at h1
  · rintro rfl; simp at h1
  · simp only [cIsSpace, Bool.or_eq_false_iff, beq_eq_false_iff_ne, ne_eq]
    refine ⟨⟨⟨⟨⟨?_, ?_⟩, ?_⟩, ?_⟩, ?_⟩, ?_⟩ <;> (rintro rfl; simp at h1)

theorem natToStrAux_succ (fuel n : Nat) (acc : List Char) :
    natToStrAux (fuel+1) n acc =
      if n < 10 then digitChar n :: acc
      else natToStrAux fuel (n / 10) (digitChar (n % 10) :: acc) := rfl

theorem natToStrAux_digits :
    ∀ (fuel n : Nat) (acc : List Char), (∀ c ∈ acc, c.isDigit = true) →
      ∀ c ∈ natToStrAux fuel n acc, c.isDigit = true := by
  intro fuel
  induction fuel with
  | zero => intro n acc hacc c hc; exact hacc c hc
  | succ fuel ih =>
    intro n acc hacc c hc
    rw [natToStrAux_succ] at hc
    by_cases h10 : n < 10
    · rw [if_pos h10] at hc
      rcases List.mem_cons.mp hc with rfl | hc
      · exact digitChar_isDigit h10
      · exact hacc c hc
    · rw [if_neg h10] at hc
      refine ih (n / 10) _ ?_ c hc
      intro d hd
      rcases List.mem_cons.mp hd with rfl | hd
      · exact digitChar_isDigit (Nat.mod_lt _ (by omega))
      · exact hacc d hd

theorem natToStr_digits (n : Nat) : ∀ c ∈ natToStr n, c.isDigit = true :=
  natToStrAux_digits (n+1) n [] (by simp)

theorem natToStr_lt10 {n : Nat} (h : n < 10) : natToStr n = [digitChar n] := by
  rw [natToStr, natToStrAux_succ, if_pos h]

theorem natToStrAux_shift :
    ∀ (n fuel : Nat) (acc : List Char), n < fuel →
      natToStrAux fuel n acc = natToStr n ++ acc := by
  intro n
  induction n using Nat.strong_induction_on with
  | _ n ih =>
    intro fuel acc hlt
    obtain ⟨f, rfl⟩ : ∃ f, fuel = f + 1 := ⟨fuel - 1, by omega⟩
    rw [natToStrAux_succ]
    by_cases h10 : n < 10
    · rw [if_pos h10, natToStr_lt10 h10]
      rfl
    · have hdiv : n / 10 < n := Nat.div_lt_self (by omega) (by omega)
      rw [if_neg h10, ih (n / 10) hdiv f _ (by omega)]
      conv_rhs => rw [natToStr, natToStrAux_succ, if_neg h10,
        ih (n / 10) hdiv n _ (by omega)]
      simp

theorem natToStr_ge10 {n : Nat} (h : ¬ n < 10) :
    natToStr n = natToStr (n / 10) ++ [digitChar (n % 10)] := by
  have hdiv : n / 10 < n := Nat.div_lt_self (by omega) (by omega)
  rw [natToStr, natToStrAux_succ, if_neg h, natToStrAux_shift (n / 10) n _ (by omega)]

theorem natToStr_ne_nil (n : Nat) : natToStr n ≠ [] := by
  by_cases h10 : n < 10
  · rw [natToStr_lt10 h10]; simp
  · rw [natToStr_ge10 h10]; simp

theorem natToStr_foldl (n : Nat) :
    ∀ a : Nat, (natToStr n).foldl (fun a c => 10 * a + (c.toNat - 48)) a =
      a * 10 ^ (natToStr n).length + n := by
  induction n using Nat.strong_induction_on with
  | _ n ih =>
    intro a
    by_cases h10 : n < 10
    · rw [natToStr_lt10 h10]
      simp [List.foldl, digitChar_toNat h10]
      ring
    · have hdiv : n / 10 < n := Nat.div_lt_self (by omega) (by omega)
      rw [natToStr_ge10 h10, List.foldl_append, ih (n / 10) hdiv a]
      have hmod : (digitChar (n % 10)).toNat = 48 + n % 10 :=
        digitChar_toNat (Nat.mod_lt n (by omega))
      simp [List.foldl, hmod]
      rw [pow_succ]
      have hdm := Nat.div_add_mod n 10
      ring_nf
      omega

theorem digitsToNat_natToStr (n : Nat) : digitsToNat (natToStr n) = n := by
  rw [digitsToNat, natToStr_foldl n 0]
  simp

theorem stoiCore_natToStr (n : Nat) : stoiCore (natToStr n) = some (n : Int) := by
  rw [stoiCore]
  have htake : (natToStr n).takeWhile Char.isDigit = natToStr n :=
    List.takeWhile_eq_self_iff.mpr (natToStr_digits n)
  simp only [htake]
  rw [if_neg (by simp [List.isEmpty_iff, natToStr_ne_nil n])]
  rw [digitsToNat_natToStr]

theorem stoiParse_natToStr (n : Nat) : stoiParse (natToStr n) = some (n : Int) := by
  obtain ⟨c, t, hct⟩ : ∃ c t, natToStr n = c :: t := by
    cases h : natToStr n with
    | nil => exact absurd h (natToStr_ne_nil n)
    | cons c t => exact ⟨c, t, rfl⟩
  have hcdig : c.isDigit = true := by
    apply natToStr_digits n
    rw [hct]; exact List.mem_cons_self _ _
  obtain ⟨_, _, _, hplus, hminus, hspace⟩ := isDigit_facts hcdig
  have hdrop : (natToStr n).dropWhile cIsSpace = c :: t := by
    rw [hct, List.dropWhile_cons_of_neg (by simp [hspace])]
  simp only [stoiParse, hdrop]
  rw [if_neg hplus, if_neg hminus, ← hct, stoiCore_natToStr]

theorem stoiParse_neg_natToStr (n : Nat) :
    stoiParse ('-' :: natToStr n) = some (-(n : Int)) := by
  have hdrop : ('-' :: natToStr n).dropWhile cIsSpace = '-' :: natToStr n :=
    List.dropWhile_cons_of_neg (by decide)
  simp only [stoiParse, hdrop]
  rw [if_pos trivial, stoiCore_natToStr]
  rfl

theorem strToIntSafe_of_parse {s : String} {v : Int}
    (h : stoiParse s.toList = some v) :
    strToIntSafe s = if v < -(2^31 : Int) ∨ (2^31 - 1 : Int) < v then 0 else v := by
  rw [strToIntSafe, h]

theorem strToIntSafe_of_parse_none {s : String}
    (h : stoiParse s.toList = none) : strToIntSafe s = 0 := by
  rw [strToIntSafe, h]

theorem strToIntSafe_intToStr {v : Int} (h1 : -(2^31) ≤ v) (h2 : v < 2^31) :
    strToIntSafe (intToStr v) = v := by
  by_cases hv : v < 0
  · have hl : (intToStr v).toList = '-' :: natToStr (-v).toNat := by
      rw [intToStr, intToStrL, if_pos hv]; rfl
    have hcast : ((-v).toNat : Int) = -v := Int.toNat_of_nonneg (by omega)
    rw [strToIntSafe_of_parse (by rw [hl, stoiParse_neg_natToStr, hcast]),
      if_neg (by omega)]
    omega
  · have hl : (intToStr v).toList = natToStr v.toNat := by
      rw [intToStr, intToStrL, if_neg hv]; rfl
    have hcast : (v.toNat : Int) = v := Int.toNat_of_nonneg (by omega)
    rw [strToIntSafe_of_parse (by rw [hl, stoiParse_natToStr, hcast]),
      if_neg (by omega)]

theorem strToIntSafe_intToStr_nonpos {v : Int} (h : v < 0) :
    strToIntSafe (intToStr v) ≤ 0 := by
  have hl : (intToStr v).toList = '-' :: natToStr (-v).toNat := by
    rw [intToStr, intToStrL, if_pos h]; rfl
  rw [strToIntSafe_of_parse (by rw [hl, stoiParse_neg_natToStr])]
  have hge : (0 : Int) ≤ (((-v).toNat : Nat) : Int) := Int.natCast_nonneg _
  by_cases hr : -(((-v).toNat : Nat) : Int) < -(2^31 : Int) ∨
      (2^31 - 1 : Int) < -(((-v).toNat : Nat) : Int)
  · rw [if_pos hr]
  · rw [if_neg hr]; omega

theorem strToIntSafe_no_digit {s : String}
    (h : ∀ c ∈ s.toList, c.isDigit = false) : strToIntSafe s = 0 := by
  have hdw : ∀ c ∈ s.toList.dropWhile cIsSpace, c.isDigit = false := by
    intro c hc
    exact h c ((s.toList.dropWhile_sublist cIsSpace).mem hc)
  have hcore : ∀ l : List Char, (∀ c ∈ l, c.isDigit = false) →
      stoiCore l = none := by
    intro l hl
    rw [stoiCore]
    cases l with
    | nil => simp
    | cons d r =>
      rw [List.takeWhile_cons_of_neg (by simp [hl d (List.mem_cons_self _ _)])]
      simp
  apply strToIntSafe_of_parse_none
  cases hds : s.toList.dropWhile cIsSpace with
  | nil => simp only [stoiParse, hds]
  | cons c r =>
    simp only [stoiParse, hds]
    have hc : c.isDigit = false := by
      apply hdw; rw [hds]; exact List.mem_cons_self _ _
    have hr : ∀ d ∈ r, d.isDigit = false := by
      intro d hd
      apply hdw; rw [hds]; exact List.mem_cons_of_mem _ hd
    by_cases hplus : c = '+'
    · rw [if_pos hplus, hcore r hr]
    · rw [if_neg hplus]
      by_cases hminus : c = '-'
      · rw [if_pos hminus, hcore r hr]; rfl
      · rw [if_neg hminus, hcore (c :: r) ?_]
        intro d hd
        rcases List.mem_cons.mp hd with rfl | hd
        · exact hc
        · exact hr d hd

/-! ISBN codec lemmas. -/

theorem onlyDigitsXChars_eq_filterMap (l : List Char) :
    onlyDigitsXChars l = l.filterMap (fun c =>
      if c.isDigit then some c
      else if c = 'X' ∨ c = 'x' then some 'X' else none) := by
  induction l with
  | nil => rfl
  | cons c t ih =>
    by_cases hd : c.isDigit = true
    · have hx : ¬ (c = 'x') := fun h => by subst h; exact absurd hd (by decide)
      simp [onlyDigitsXChars, List.filterMap_cons, hd, hx, ih]
    · by_cases hX : c = 'X' ∨ c = 'x'
      · rcases hX with rfl | rfl
        · simp +decide [onlyDigitsXChars, List.filterMap_cons, ih]
        · simp +decide [onlyDigitsXChars, List.filterMap_cons, ih]
      · simp [onlyDigitsXChars, List.filterMap_cons, hd, hX, ih]

theorem isbnWeightedSum_eq (l : List Char) :
    ∀ i, isbnWeightedSum l i = ((List.enumFrom i l).map
      (fun p => (if p.1 % 2 = 0 then 1 else 3) * (p.2.toNat - 48))).sum := by
  induction l with
  | nil => intro i; simp [isbnWeightedSum]
  | cons c t ih =>
    intro i
    rw [isbnWeightedSum]
    simp only [List.enumFrom, List.map_cons, List.sum_cons, ih (i+1)]
    split <;> ring

theorem isbn10to13_eq_spec (t : String) : isbn10to13 t = isbn10to13Spec t := by
  simp only [isbn10to13, isbn10to13Spec, isbnWeightedSum_eq, List.enum]

/-- C2: `normalizeIsbn` first keeps only digits and the letter X
(case-folded to uppercase); a cleaned string of length 13 is returned
unchanged, one of length 10 is converted by taking its first 9
characters, prepending "978" and appending the check digit
`c = (10 - sum % 10) % 10` with weights 1 (even index) / 3 (odd index);
any other cleaned length yields the empty (invalid) result; and
`normalizeIsbn "0306406152" = "9780306406157"`. -/
theorem C2_normalizeIsbn (s : String) :
    (onlyDigitsX s = String.mk (s.toList.filterMap (fun c =>
        if c.isDigit then some c
        else if c = 'X' ∨ c = 'x' then some 'X' else none))) ∧
    ((onlyDigitsX s).length = 13 → normalizeIsbn s = onlyDigitsX s) ∧
    ((onlyDigitsX s).length = 10 →
      normalizeIsbn s = isbn10to13Spec (onlyDigitsX s)) ∧
    ((onlyDigitsX s).length ≠ 13 → (onlyDigitsX s).length ≠ 10 →
      normalizeIsbn s = "") ∧
    normalizeIsbn "0306406152" = "9780306406157" := by
  refine ⟨?_, ?_, ?_, ?_, by decide⟩
  · rw [onlyDigitsX, onlyDigitsXChars_eq_filterMap]
  · intro h
    simp only [normalizeIsbn]
    rw [if_pos h]
  · intro h
    simp only [normalizeIsbn]
    rw [if_neg (by omega), if_pos h, isbn10to13_eq_spec]
  · intro h13 h10
    simp only [normalizeIsbn]
    rw [if_neg h13, if_neg h10]

theorem C2_witness :
    (onlyDigitsX "0306406152").length = 10 ∧
    normalizeIsbn "0306406152" = isbn10to13Spec (onlyDigitsX "0306406152") :=
  ⟨by decide, (C2_normalizeIsbn "0306406152").2.2.1 (by decide)⟩

/-! Days-to-finish lemmas (C7, C8). -/

theorem tdiv_ceil {a r : Int} (ha : 0 < a) (hr : 0 < r) :
    ((a + r - 1).tdiv r) = ⌈(a : ℚ) / (r : ℚ)⌉ := by
  rw [Int.tdiv_eq_ediv (by omega) (by omega)]
  have hmod := Int.emod_add_ediv (a + r - 1) r
  have hm0 : 0 ≤ (a + r - 1) % r := Int.emod_nonneg _ (by omega)
  have hml : (a + r - 1) % r < r := Int.emod_lt_of_pos _ hr
  set q := (a + r - 1) / r with hq
  set m := (a + r - 1) % r with hm
  have hrq : (0 : ℚ) < (r : ℚ) := by exact_mod_cast hr
  symm
  rw [Int.ceil_eq_iff]
  constructor
  · rw [lt_div_iff₀ hrq]
    have hineq : (q - 1) * r < a := by
      have hexp : (q - 1) * r = r * q - r := by ring
      omega
    calc ((q : ℚ) - 1) * (r : ℚ) = (((q - 1) * r : Int) : ℚ) := by push_cast; ring
    _ < (a : ℚ) := by exact_mod_cast hineq
  · rw [div_le_iff₀ hrq]
    have hineq : a ≤ q * r := by
      have hexp : q * r = r * q := by ring
      omega
    calc (a : ℚ) ≤ ((q * r : Int) : ℚ) := by exact_mod_cast hineq
    _ = (q : ℚ) * (r : ℚ) := by push_cast; ring

/-- C7: `daysToFinish` returns unknown (`none`) iff `dailyRate ≤ 0` or
`currentPage ≥ totalPages`, and otherwise returns the ceiling of
`(totalPages - currentPage) / dailyRate`. -/
theorem C7_daysToFinish (b : Book) (r : Int) :
    (daysToFinish b r = none ↔ (r ≤ 0 ∨ b.totalPages ≤ b.currentPage)) ∧
    (0 < r → b.currentPage < b.totalPages →
      daysToFinish b r =
        some ⌈((b.totalPages - b.currentPage : Int) : ℚ) / (r : ℚ)⌉) := by
  constructor
  · simp only [daysToFinish]
    split
    · next h => simp [h]
    · next h => simp [h]
  · intro hr hcp
    simp only [daysToFinish]
    rw [if_neg (by omega)]
    congr 1
    exact tdiv_ceil (by omega) hr

theorem C7_witness :
    daysToFinish { id := 0, title := "", author := "", totalPages := 100,
                   currentPage := 39, status := 0, isbn := "" } 15 =
      some ⌈((100 - 39 : Int) : ℚ) / (15 : ℚ)⌉ :=
  (C7_daysToFinish _ 15).2 (by decide) (by decide)

/-- C8 claim, as stated, is false: `daysToFinish` on totalPages 100,
currentPage 40 at rate 15 does not return 5. -/
theorem C8_counterexample :
    daysToFinish { id := 0, title := "", author := "", totalPages := 100,
                   currentPage := 40, status := 0, isbn := "" } 15 ≠ some 5 := by
  decide

/-- C8 amended: it returns 4 (= ceil(60/15)). -/
theorem C8_value :
    daysToFinish { id := 0, title := "", author := "", totalPages := 100,
                   currentPage := 40, status := 0, isbn := "" } 15 = some 4 := by
  decide

/-! Update operations (C4). -/

/-- C4: for every stored record, `setStatus(id, Finished)` (status 2)
sets that record's currentPage to its totalPages, while `setStatus` with
any non-Finished status leaves currentPage unchanged; in both cases
title, author, totalPages and isbn are unchanged (expressed by the
record-update form), and `updateProgress` stores exactly the currentPage
and status passed, with no auto-adjustment. -/
theorem C4_status_coupling (st : Store) (idv s cp : Int) (i : Nat) (b : Book)
    (hb : st.books[i]? = some b) (hid : b.id = idv) :
    ((SqliteStorage.updateStatus st idv 2).1.books[i]? =
      some { b with status := 2, currentPage := b.totalPages }) ∧
    (s ≠ 2 → (SqliteStorage.updateStatus st idv s).1.books[i]? =
      some { b with status := s }) ∧
    ((SqliteStorage.updateProgress st idv cp s).1.books[i]? =
      some { b with currentPage := cp, status := s }) := by
  refine ⟨?_, ?_, ?_⟩
  · simp only [SqliteStorage.updateStatus, List.getElem?_map, hb, Option.map_some']
    rw [if_pos hid, if_pos trivial]
  · intro hs
    simp only [SqliteStorage.updateStatus, List.getElem?_map, hb, Option.map_some']
    rw [if_pos hid, if_neg hs]
  · simp only [SqliteStorage.updateProgress, List.getElem?_map, hb, Option.map_some']
    rw [if_pos hid]

theorem C4_witness :
    (SqliteStorage.updateStatus
        ⟨2, [⟨1, "T", "A", 100, 40, 1, "i"⟩], none⟩ 1 2).1.books[0]? =
      some { (⟨1, "T", "A", 100, 40, 1, "i"⟩ : Book) with
             status := 2, currentPage := 100 } := by
  have h := (C4_status_coupling ⟨2, [⟨1, "T", "A", 100, 40, 1, "i"⟩], none⟩
      1 0 0 0 ⟨1, "T", "A", 100, 40, 1, "i"⟩ rfl rfl).1
  simpa using h

/-! Daily-rate setting (C10). -/

/-- C10: the daily rate is kept non-negative at the public interface:
`setDailyRate r` stores `max 0 r` (for every int `r`, negatives
included), and `getDailyRate` always returns a value ≥ 0, returning 0
when the setting is absent, digit-free (unparseable), or stored as a
negative number. -/
theorem C10_dailyRate :
    (∀ (st : Store) (r : Int), r < 2^31 →
      SqliteStorage.getDailyRate (SqliteStorage.setDailyRate st r).1 = max 0 r) ∧
    (∀ st : Store, 0 ≤ SqliteStorage.getDailyRate st) ∧
    (∀ st : Store, st.dailyRate = none → SqliteStorage.getDailyRate st = 0) ∧
    (∀ (st : Store) (v : String), st.dailyRate = some v →
      (∀ c ∈ v.toList, c.isDigit = false) → SqliteStorage.getDailyRate st = 0) ∧
    (∀ (st : Store) (n : Int), n < 0 → st.dailyRate = some (intToStr n) →
      SqliteStorage.getDailyRate st = 0) := by
  refine ⟨?_, ?_, ?_, ?_, ?_⟩
  · intro st r hr
    simp only [SqliteStorage.getDailyRate, SqliteStorage.setDailyRate]
    rw [strToIntSafe_intToStr (by omega) (by omega)]
    omega
  · intro st
    simp only [SqliteStorage.getDailyRate]
    exact le_max_left 0 _
  · intro st h
    simp only [SqliteStorage.getDailyRate, h]
    simp
  · intro st v hv hnd
    simp only [SqliteStorage.getDailyRate, hv]
    rw [strToIntSafe_no_digit hnd]
    simp
  · intro st n hn hst
    simp only [SqliteStorage.getDailyRate, hst]
    have := strToIntSafe_intToStr_nonpos hn
    omega

theorem C10_witness :
    (-5 : Int) < 2^31 ∧
    SqliteStorage.getDailyRate
      (SqliteStorage.setDailyRate ⟨1, [], none⟩ (-5)).1 = max 0 (-5) :=
  ⟨by decide, C10_dailyRate.1 ⟨1, [], none⟩ (-5) (by decide)⟩

/-! Import row handling (C5). -/

theorem clampInt_bounds {v lo hi : Int} (h : lo ≤ hi) :
    lo ≤ SqliteStorage.clampInt v lo hi ∧ SqliteStorage.clampInt v lo hi ≤ hi ∧
    (lo ≤ v → v ≤ hi → SqliteStorage.clampInt v lo hi = v) := by
  unfold SqliteStorage.clampInt
  split_ifs <;> omega

/-- C5: during import, every row that parses to fewer than 7 columns is
skipped without failing the import, and every row with at least 7
columns is inserted with the id column ignored and a fresh id assigned,
`totalPages = max 0 v`, `currentPage` clamped to `[0, totalPages]`,
`status` clamped to `[0, 2]`, and digit-free numeric fields coerced
to 0. -/
theorem C5_import_row_handling :
    (∀ (faults : Nat → Bool) (l : List Char) (ls : List (List Char))
        (k : Nat) (st : Store),
      (csvParse l).length < 7 →
      SqliteStorage.importRows faults (l :: ls) k st =
        SqliteStorage.importRows faults ls k st) ∧
    (∀ (file : String) (st : Store), getLines file.toList ≠ [] →
      (SqliteStorage.importCsv file st).2 = true) ∧
    (∀ (l : List Char) (ls : List (List Char)) (k : Nat) (st : Store),
      ¬ (csvParse l).length < 7 →
      SqliteStorage.importRows (fun _ => false) (l :: ls) k st =
        SqliteStorage.importRows (fun _ => false) ls (k+1)
          (SqliteStorage.add st (SqliteStorage.rowBook (csvParse l))).1) ∧
    (∀ (c0 c0' : String) (t : List String),
      SqliteStorage.rowBook (c0 :: t) = SqliteStorage.rowBook (c0' :: t)) ∧
    (∀ (st : Store) (cols : List String),
      (SqliteStorage.add st (SqliteStorage.rowBook cols)).1.books =
        st.books ++ [{ SqliteStorage.rowBook cols with id := st.nextId }] ∧
      ((∀ b' ∈ st.books, b'.id < st.nextId) →
        st.nextId ∉ st.books.map (fun b' => b'.id))) ∧
    (∀ cols : List String,
      (SqliteStorage.rowBook cols).totalPages =
        max 0 (strToIntSafe (cols.getD 3 "")) ∧
      0 ≤ (SqliteStorage.rowBook cols).currentPage ∧
      (SqliteStorage.rowBook cols).currentPage ≤
        (SqliteStorage.rowBook cols).totalPages ∧
      (0 ≤ strToIntSafe (cols.getD 4 "") →
        strToIntSafe (cols.getD 4 "") ≤ (SqliteStorage.rowBook cols).totalPages →
        (SqliteStorage.rowBook cols).currentPage = strToIntSafe (cols.getD 4 "")) ∧
      0 ≤ (SqliteStorage.rowBook cols).status ∧
      (SqliteStorage.rowBook cols).status ≤ 2 ∧
      (SqliteStorage.rowBook cols).title = cols.getD 1 "" ∧
      (SqliteStorage.rowBook cols).author = cols.getD 2 "" ∧
      (SqliteStorage.rowBook cols).isbn = cols.getD 6 "") ∧
    (∀ s : String, (∀ c ∈ s.toList, c.isDigit = false) → strToIntSafe s = 0) := by
  refine ⟨?_, ?_, ?_, ?_, ?_, ?_, fun s h => strToIntSafe_no_digit h⟩
  · intro faults l ls k st h
    simp only [SqliteStorage.importRows]
    rw [if_pos h]
  · intro file st h
    simp only [SqliteStorage.importCsv, SqliteStorage.importCsvF]
    cases hgl : getLines file.toList with
    | nil => exact absurd hgl h
    | cons l0 rest => rfl
  · intro l ls k st h
    simp only [SqliteStorage.importRows]
    rw [if_neg h, if_neg (by simp)]
  · intro c0 c0' t
    rfl
  · intro st cols
    refine ⟨rfl, ?_⟩
    intro hwf hmem
    obtain ⟨b', hb', hbid⟩ := List.mem_map.mp hmem
    have := hwf b' hb'
    omega
  · intro cols
    have hmax : (0 : Int) ≤ max 0 (strToIntSafe (cols.getD 3 "")) := le_max_left _ _
    obtain ⟨hcl, hcu, hce⟩ := @clampInt_bounds (strToIntSafe (cols.getD 4 ""))
      0 (max 0 (strToIntSafe (cols.getD 3 ""))) hmax
    obtain ⟨hsl, hsu, _⟩ := @clampInt_bounds (strToIntSafe (cols.getD 5 ""))
      0 2 (by omega)
    exact ⟨rfl, hcl, hcu, hce, hsl, hsu, rfl, rfl, rfl⟩

theorem C5_witness :
    (csvParse "a,b".toList).length < 7 ∧
    SqliteStorage.importRows (fun _ => false) ["a,b".toList] 0 emptyStore =
      SqliteStorage.importRows (fun _ => false) [] 0 emptyStore :=
  ⟨by decide, C5_import_row_handling.1 (fun _ => false) "a,b".toList [] 0
    emptyStore (by decide)⟩

/-! Metadata lookup chain (C6). -/

theorem lookupIsbn_primary_some {env : LookupEnv} {raw : String}
    {r : LookupResult}
    (hnorm : ¬ (normalizeIsbn raw = "")) (hp : env.primary = some r) :
    lookupIsbn env raw =
      if ¬ (r.title = "") then (some r, false) else lookupSecondary env := by
  rw [lookupIsbn, if_neg hnorm, hp]

theorem lookupIsbn_primary_none {env : LookupEnv} {raw : String}
    (hnorm : ¬ (normalizeIsbn raw = "")) (hp : env.primary = none) :
    lookupIsbn env raw = lookupSecondary env := by
  rw [lookupIsbn, if_neg hnorm, hp]

theorem lookupSecondary_on {env : LookupEnv} {r : LookupResult}
    (hg : env.useGoogleBooks = true) (hs : env.secondary = some r) :
    lookupSecondary env =
      (if ¬ (r.title = "") ∨ ¬ (r.author = "") then some r else none, true) := by
  rw [lookupSecondary, if_pos hg, hs]

/-- C6: for every ISBN that normalizes, `lookupIsbn` queries the
primary (Open Library) source first and, whenever it yields a non-empty
title, returns that result immediately without querying the secondary
source; the secondary (Google Books) source is consulted only when the
run-scoped flag is set, and its first result is accepted when its title
or author is non-empty; when no source yields a non-empty field the
lookup returns not-found. -/
theorem C6_lookup_chain (env : LookupEnv) (raw : String)
    (hnorm : ¬ (normalizeIsbn raw = "")) :
    (∀ r, env.primary = some r → ¬ (r.title = "") →
      lookupIsbn env raw = (some r, false)) ∧
    ((lookupIsbn env raw).2 = true → env.useGoogleBooks = true) ∧
    (∀ r, env.useGoogleBooks = true →
      (env.primary = none ∨ ∃ r0, env.primary = some r0 ∧ r0.title = "") →
      env.secondary = some r → (¬ (r.title = "") ∨ ¬ (r.author = "")) →
      lookupIsbn env raw = (some r, true)) ∧
    ((env.primary = none ∨ env.primary = some ⟨"", ""⟩) →
     (env.secondary = none ∨ env.secondary = some ⟨"", ""⟩) →
     (lookupIsbn env raw).1 = none) := by
  have hsec2 : (lookupSecondary env).2 = true → env.useGoogleBooks = true := by
    by_cases hg : env.useGoogleBooks = true
    · intro _; exact hg
    · rw [lookupSecondary, if_neg hg]
      intro h
      exact absurd h (by simp)
  have hsecval : ∀ r : LookupResult, env.useGoogleBooks = true →
      env.secondary = some r → (¬ (r.title = "") ∨ ¬ (r.author = "")) →
      lookupSecondary env = (some r, true) := by
    intro r hg hs hne
    rw [lookupSecondary_on hg hs, if_pos hne]
  have hsecnone : (env.secondary = none ∨ env.secondary = some ⟨"", ""⟩) →
      (lookupSecondary env).1 = none := by
    intro hs
    by_cases hg : env.useGoogleBooks = true
    · rcases hs with hs | hs
      · rw [lookupSecondary, if_pos hg, hs]
      · rw [lookupSecondary_on hg hs, if_neg (by simp)]
    · rw [lookupSecondary, if_neg hg]
  refine ⟨?_, ?_, ?_, ?_⟩
  · intro r hp ht
    rw [lookupIsbn_primary_some hnorm hp, if_pos ht]
  · cases hp : env.primary with
    | none =>
      rw [lookupIsbn_primary_none hnorm hp]
      exact hsec2
    | some r =>
      by_cases ht : r.title = ""
      · rw [lookupIsbn_primary_some hnorm hp, if_neg (by simpa using ht)]
        exact hsec2
      · rw [lookupIsbn_primary_some hnorm hp, if_pos ht]
        intro h2
        exact absurd h2 (by simp)
  · intro r hg hprim hs hne
    rcases hprim with hp | ⟨r0, hp, ht0⟩
    · rw [lookupIsbn_primary_none hnorm hp]
      exact hsecval r hg hs hne
    · rw [lookupIsbn_primary_some hnorm hp, if_neg (by simpa using ht0)]
      exact hsecval r hg hs hne
  · intro hprim hs
    rcases hprim with hp | hp
    · rw [lookupIsbn_primary_none hnorm hp]
      exact hsecnone hs
    · rw [lookupIsbn_primary_some hnorm hp, if_neg (by simp)]
      exact hsecnone hs

theorem C6_witness :
    lookupIsbn ⟨some ⟨"T", ""⟩, true, some ⟨"X", "Y"⟩⟩ "9780306406157" =
      (some ⟨"T", ""⟩, false) :=
  (C6_lookup_chain ⟨some ⟨"T", ""⟩, true, some ⟨"X", "Y"⟩⟩ "9780306406157"
    (by decide)).1 ⟨"T", ""⟩ rfl (by decide)

/-! CSV parser lemmas: consuming one exported field at a time. -/

theorem csvGo_nil (m : CsvMode) (cur : List Char) (cols : List (List Char)) :
    csvGo m cur cols [] = cols ++ [cur] := rfl

theorem csvGo_out_cons (cur : List Char) (cols : List (List Char))
    (c : Char) (rest : List Char) :
    csvGo .outQ cur cols (c :: rest) =
      if c = ',' then csvGo .outQ [] (cols ++ [cur]) rest
      else if c = '"' then csvGo .inQ cur cols rest
      else csvGo .outQ (cur ++ [c]) cols rest := rfl

theorem csvGo_in_cons (cur : List Char) (cols : List (List Char))
    (c : Char) (rest : List Char) :
    csvGo .inQ cur cols (c :: rest) =
      if c = '"' then csvGo .afterQ cur cols rest
      else csvGo .inQ (cur ++ [c]) cols rest := rfl

theorem csvGo_after_cons (cur : List Char) (cols : List (List Char))
    (c : Char) (rest : List Char) :
    csvGo .afterQ cur cols (c :: rest) =
      if c = '"' then csvGo .inQ (cur ++ ['"']) cols rest
      else if c = ',' then csvGo .outQ [] (cols ++ [cur]) rest
      else csvGo .outQ (cur ++ [c]) cols rest := rfl

theorem csvGo_lit (lit : List Char) (h : ∀ c ∈ lit, c ≠ ',' ∧ c ≠ '"') :
    ∀ (cur : List Char) (cols : List (List Char)) (rest : List Char),
      csvGo .outQ cur cols (lit ++ rest) = csvGo .outQ (cur ++ lit) cols rest := by
  induction lit with
  | nil => intro cur cols rest; simp
  | cons c t ih =>
    intro cur cols rest
    obtain ⟨hc1, hc2⟩ := h c (List.mem_cons_self _ _)
    rw [List.cons_append, csvGo_out_cons, if_neg hc1, if_neg hc2,
      ih (fun d hd => h d (List.mem_cons_of_mem _ hd))]
    have : (cur ++ [c]) ++ t = cur ++ c :: t := by simp
    rw [this]

theorem csvGo_esc (f : List Char) :
    ∀ (cur : List Char) (cols : List (List Char)) (rest : List Char),
      csvGo .inQ cur cols (csvEsc f ++ '"' :: rest) =
        csvGo .afterQ (cur ++ f) cols rest := by
  induction f with
  | nil =>
    intro cur cols rest
    rw [csvEsc, List.nil_append, csvGo_in_cons, if_pos rfl, List.append_nil]
  | cons c t ih =>
    intro cur cols rest
    by_cases hc : c = '"'
    · subst hc
      rw [csvEsc, if_pos rfl, List.cons_append, List.cons_append,
        csvGo_in_cons, if_pos rfl, csvGo_after_cons, if_pos rfl, ih]
      have : (cur ++ ['"']) ++ t = cur ++ '"' :: t := by simp
      rw [this]
    · rw [csvEsc, if_neg hc, List.cons_append, csvGo_in_cons, if_neg hc, ih]
      have : (cur ++ [c]) ++ t = cur ++ c :: t := by simp
      rw [this]

theorem csvGo_after_comma (cur : List Char) (cols : List (List Char))
    (r : List Char) :
    csvGo .afterQ cur cols (',' :: r) = csvGo .outQ [] (cols ++ [cur]) r := by
  rw [csvGo_after_cons, if_neg (by decide), if_pos rfl]

theorem csvGo_lit_comma (lit : List Char) (h : ∀ c ∈ lit, c ≠ ',' ∧ c ≠ '"')
    (cur : List Char) (cols : List (List Char)) (r : List Char) :
    csvGo .outQ cur cols (lit ++ ',' :: r) =
      csvGo .outQ [] (cols ++ [cur ++ lit]) r := by
  rw [csvGo_lit lit h, csvGo_out_cons, if_pos rfl]

theorem csvGo_quoted (f : List Char) (cur : List Char)
    (cols : List (List Char)) (r : List Char) :
    csvGo .outQ cur cols ('"' :: (csvEsc f ++ '"' :: ',' :: r)) =
      csvGo .outQ [] (cols ++ [cur ++ f]) r := by
  rw [csvGo_out_cons, if_neg (by decide), if_pos rfl, csvGo_esc,
    csvGo_after_comma]

theorem csvGo_quoted_last (f : List Char) (cur : List Char)
    (cols : List (List Char)) :
    csvGo .outQ cur cols ('"' :: (csvEsc f ++ ['"'])) = cols ++ [cur ++ f] := by
  rw [csvGo_out_cons, if_neg (by decide), if_pos rfl]
  rw [show (csvEsc f ++ ['"']) = csvEsc f ++ '"' :: [] from rfl, csvGo_esc,
    csvGo_nil]

/-! Per-line round-trip of the CSV export format. -/

theorem toList_append (a b : String) : (a ++ b).toList = a.toList ++ b.toList :=
  String.data_append a b

theorem intToStrL_chars {v : Int} : ∀ c ∈ intToStrL v, c.isDigit = true ∨ c = '-' := by
  intro c hc
  rw [intToStrL] at hc
  split at hc
  · rcases List.mem_cons.mp hc with rfl | hc
    · exact Or.inr rfl
    · exact Or.inl (natToStr_digits _ c hc)
  · exact Or.inl (natToStr_digits _ c hc)

theorem intToStrL_ne {v : Int} : ∀ c ∈ intToStrL v, c ≠ ',' ∧ c ≠ '"' := by
  intro c hc
  rcases intToStrL_chars c hc with hd | rfl
  · obtain ⟨h1, h2, _⟩ := isDigit_facts hd
    exact ⟨h1, h2⟩
  · exact ⟨by decide, by decide⟩

theorem csvEsc_mem {f : List Char} : ∀ c ∈ csvEsc f, c ∈ f ∨ c = '"' := by
  induction f with
  | nil => intro c hc; exact absurd hc (by simp [csvEsc])
  | cons d t ih =>
    intro c hc
    rw [csvEsc] at hc
    split at hc
    · rcases List.mem_cons.mp hc with rfl | hc
      · exact Or.inr rfl
      · rcases List.mem_cons.mp hc with rfl | hc
        · exact Or.inr rfl
        · rcases ih c hc with h | h
          · exact Or.inl (List.mem_cons_of_mem _ h)
          · exact Or.inr h
    · rcases List.mem_cons.mp hc with rfl | hc
      · exact Or.inl (List.mem_cons_self _ _)
      · rcases ih c hc with h | h
        · exact Or.inl (List.mem_cons_of_mem _ h)
        · exact Or.inr h

theorem lineOf_toList (b : Book) :
    (SqliteStorage.lineOf b).toList =
      intToStrL b.id ++ ',' ::
      ('"' :: (csvEsc b.title.toList ++ '"' :: ',' ::
      ('"' :: (csvEsc b.author.toList ++ '"' :: ',' ::
      (intToStrL b.totalPages ++ ',' ::
      (intToStrL b.currentPage ++ ',' ::
      (intToStrL b.status ++ ',' ::
      ('"' :: (csvEsc b.isbn.toList ++ ['"']))))))))) := by
  simp only [SqliteStorage.lineOf, toList_append, intToStr, csvQuote]
  simp

theorem csvParse_lineOf (b : Book) :
    csvParse (SqliteStorage.lineOf b).toList =
      [intToStr b.id, b.title, b.author, intToStr b.totalPages,
       intToStr b.currentPage, intToStr b.status, b.isbn] := by
  rw [csvParse, lineOf_toList,
    csvGo_lit_comma (intToStrL b.id) intToStrL_ne,
    csvGo_quoted, csvGo_quoted,
    csvGo_lit_comma (intToStrL b.totalPages) intToStrL_ne,
    csvGo_lit_comma (intToStrL b.currentPage) intToStrL_ne,
    csvGo_lit_comma (intToStrL b.status) intToStrL_ne,
    csvGo_quoted_last]
  simp [intToStr]

theorem lineCharOk_comma (b : Book) : lineCharOk b ',' := by
  simp [lineCharOk]

theorem lineCharOk_quote (b : Book) : lineCharOk b '"' := by
  simp [lineCharOk]

theorem lineCharOk_int (b : Book) (v : Int) :
    ∀ c ∈ intToStrL v, lineCharOk b c := by
  intro c hc
  rcases intToStrL_chars c hc with h | h <;> simp [lineCharOk, h]

theorem lineCharOk_esc_title (b : Book) :
    ∀ c ∈ csvEsc b.title.toList, lineCharOk b c := by
  intro c hc
  rcases csvEsc_mem c hc with h | h
  · exact Or.inl h
  · exact Or.inr (Or.inr (Or.inr (Or.inr (Or.inr (Or.inr h)))))

theorem lineCharOk_esc_author (b : Book) :
    ∀ c ∈ csvEsc b.author.toList, lineCharOk b c := by
  intro c hc
  rcases csvEsc_mem c hc with h | h
  · exact Or.inr (Or.inl h)
  · exact Or.inr (Or.inr (Or.inr (Or.inr (Or.inr (Or.inr h)))))

theorem lineCharOk_esc_isbn (b : Book) :
    ∀ c ∈ csvEsc b.isbn.toList, lineCharOk b c := by
  intro c hc
  rcases csvEsc_mem c hc with h | h
  · exact Or.inr (Or.inr (Or.inl h))
  · exact Or.inr (Or.inr (Or.inr (Or.inr (Or.inr (Or.inr h)))))

theorem lineOf_chars (b : Book) :
    ∀ c ∈ (SqliteStorage.lineOf b).toList, lineCharOk b c := by
  rw [lineOf_toList]
  simp only [List.forall_mem_append, List.forall_mem_cons,
    List.forall_mem_singleton]
  and_intros <;>
    first
      | exact lineCharOk_comma b
      | exact lineCharOk_quote b
      | exact lineCharOk_int b _
      | exact lineCharOk_esc_title b
      | exact lineCharOk_esc_author b
      | exact lineCharOk_esc_isbn b
      | exact fun x hx => absurd hx (List.not_mem_nil x)

theorem lineOf_no_newline {b : Book} (ht : '\n' ∉ b.title.toList)
    (ha : '\n' ∉ b.author.toList) (hi : '\n' ∉ b.isbn.toList) :
    '\n' ∉ (SqliteStorage.lineOf b).toList := by
  intro hmem
  rcases lineOf_chars b '\n' hmem with h | h | h | h | h | h | h
  · exact ht h
  · exact ha h
  · exact hi h
  · exact absurd h (by decide)
  · exact absurd h (by decide)
  · exact absurd h (by decide)
  · exact absurd h (by decide)

/-! `getline` stream structure of exported files. -/

theorem getLines_cons (c : Char) (rest : List Char) :
    getLines (c :: rest) =
      if c = '\n' then [] :: getLines rest
      else
        match getLines rest with
        | [] => [[c]]
        | l :: ls => (c :: l) :: ls := rfl

theorem getLines_append {l : List Char} (hnl : '\n' ∉ l) (rest : List Char) :
    getLines (l ++ '\n' :: rest) = l :: getLines rest := by
  induction l with
  | nil =>
    rw [List.nil_append, getLines_cons, if_pos rfl]
  | cons c t ih =>
    have hc : c ≠ '\n' := fun e => hnl (e ▸ List.mem_cons_self _ _)
    rw [List.cons_append, getLines_cons, if_neg hc,
      ih (fun hm => hnl (List.mem_cons_of_mem _ hm))]

theorem getLines_csvRows (bs : List Book)
    (h : ∀ b ∈ bs, '\n' ∉ (SqliteStorage.lineOf b).toList) :
    getLines (SqliteStorage.csvRows bs).toList =
      bs.map (fun b => (SqliteStorage.lineOf b).toList) := by
  induction bs with
  | nil => rfl
  | cons b t ih =>
    have hline := h b (List.mem_cons_self _ _)
    have htl : (SqliteStorage.csvRows (b :: t)).toList =
        (SqliteStorage.lineOf b).toList ++ '\n' ::
          (SqliteStorage.csvRows t).toList := by
      have hstep : SqliteStorage.csvRows (b :: t) =
          SqliteStorage.lineOf b ++ "\n" ++ SqliteStorage.csvRows t := rfl
      rw [hstep, toList_append, toList_append]
      simp
    rw [htl, getLines_append hline,
      ih (fun b' hb' => h b' (List.mem_cons_of_mem _ hb')), List.map_cons]

theorem list_none (st : Store) : SqliteStorage.list st none = sortById st.books := by
  simp [SqliteStorage.list]

theorem getLines_exportCsv (st : Store)
    (h : ∀ b ∈ SqliteStorage.list st none, '\n' ∉ (SqliteStorage.lineOf b).toList) :
    getLines (SqliteStorage.exportCsv st).toList =
      "id,title,author,totalPages,currentPage,status,isbn".toList ::
        (SqliteStorage.list st none).map
          (fun b => (SqliteStorage.lineOf b).toList) := by
  have hexp : (SqliteStorage.exportCsv st).toList =
      "id,title,author,totalPages,currentPage,status,isbn".toList ++ '\n' ::
        (SqliteStorage.csvRows (SqliteStorage.list st none)).toList := by
    have h1 : SqliteStorage.exportCsv st =
        "id,title,author,totalPages,currentPage,status,isbn\n" ++
          SqliteStorage.csvRows (SqliteStorage.list st none) := rfl
    have h2 : ("id,title,author,totalPages,currentPage,status,isbn\n").toList =
        "id,title,author,totalPages,currentPage,status,isbn".toList ++ ['\n'] := by
      decide
    rw [h1, toList_append, h2]
    simp
  rw [hexp, getLines_append (by decide), getLines_csvRows _ h]

theorem importCsvF_cons {file : String} {faults : Nat → Bool} {st : Store}
    {l0 : List Char} {rest : List (List Char)}
    (h : getLines file.toList = l0 :: rest) :
    SqliteStorage.importCsvF file faults st =
      (SqliteStorage.importRows faults
        (if containsSub ("id,".toList) l0 then rest else l0 :: rest) 0 st,
       true) := by
  rw [SqliteStorage.importCsvF, h]

theorem rowBook_lineOf {b : Book} (hg : GoodBook b) :
    SqliteStorage.rowBook (csvParse (SqliteStorage.lineOf b).toList) =
      { b with id := 0 } := by
  obtain ⟨h1, h2, h3, h4, h5, h6, _, _, _⟩ := hg
  rw [csvParse_lineOf]
  simp only [SqliteStorage.rowBook, List.getD_cons_zero, List.getD_cons_succ]
  rw [@strToIntSafe_intToStr b.totalPages (by omega) (by omega),
    @strToIntSafe_intToStr b.currentPage (by omega) (by omega),
    @strToIntSafe_intToStr b.status (by omega) (by omega),
    max_eq_right h1,
    (@clampInt_bounds b.currentPage 0 b.totalPages (by omega)).2.2 h3 h4,
    (@clampInt_bounds b.status 0 2 (by omega)).2.2 h5 h6]

theorem importRows_append (bs : List Book) :
    ∀ (st0 : Store) (k : Nat), (∀ b ∈ bs, GoodBook b) →
      SqliteStorage.importRows (fun _ => false)
          (bs.map (fun b => (SqliteStorage.lineOf b).toList)) k st0 =
        ⟨st0.nextId + bs.length, st0.books ++ reassignFrom st0.nextId bs,
         st0.dailyRate⟩ := by
  induction bs with
  | nil =>
    intro st0 k h
    simp only [List.map_nil, SqliteStorage.importRows, reassignFrom]
    cases st0
    simp
  | cons b t ih =>
    intro st0 k h
    have hgb := h b (List.mem_cons_self _ _)
    rw [List.map_cons]
    simp only [SqliteStorage.importRows]
    have hlen : ¬ (csvParse (SqliteStorage.lineOf b).toList).length < 7 := by
      rw [csvParse_lineOf]; simp
    rw [if_neg hlen, if_neg (by simp), rowBook_lineOf hgb]
    simp only [SqliteStorage.add]
    rw [ih _ _ (fun b' hb' => h b' (List.mem_cons_of_mem _ hb'))]
    simp only [reassignFrom, List.length_cons, Store.mk.injEq]
    and_intros
    · push_cast
      omega
    · simp
    · trivial

theorem sortById_perm (l : List Book) : (sortById l).Perm l :=
  List.perm_insertionSort idLe l

theorem sortById_sorted (l : List Book) : List.Sorted idLe (sortById l) :=
  List.sorted_insertionSort idLe l

theorem reassignFrom_map_stripId (n : Int) (l : List Book) :
    (reassignFrom n l).map stripId = l.map stripId := by
  induction l generalizing n with
  | nil => rfl
  | cons b t ih =>
    simp only [reassignFrom, List.map_cons, ih]
    rfl

theorem reassignFrom_getElem (l : List Book) :
    ∀ (n : Int) (i : Nat) (b : Book),
      (reassignFrom n l)[i]? = some b → b.id = n + i := by
  induction l with
  | nil =>
    intro n i b h
    rw [reassignFrom] at h
    simp at h
  | cons x t ih =>
    intro n i b h
    rw [reassignFrom] at h
    cases i with
    | zero =>
      rw [List.getElem?_cons_zero] at h
      obtain rfl := (Option.some.injEq _ _).mp h
      simp
    | succ i =>
      rw [List.getElem?_cons_succ] at h
      have := ih (n+1) i b h
      push_cast
      push_cast at this
      omega

/-- C3 amended: for every non-empty record set whose records are
well-formed (`GoodBook`: numeric fields in the ranges the import clamps
to and representable as C++ ints, text fields newline-free), exporting
and importing into an empty store succeeds and yields records equal to
the originals in everything but the id, with ids freshly assigned as
1, 2, ... in export order. -/
theorem C3_roundTrip (st : Store) (hne : st.books ≠ [])
    (hwf : ∀ b ∈ st.books, GoodBook b) :
    (SqliteStorage.importCsv (SqliteStorage.exportCsv st) emptyStore).2 = true ∧
    ((SqliteStorage.importCsv (SqliteStorage.exportCsv st)
        emptyStore).1.books.map stripId).Perm (st.books.map stripId) ∧
    ∀ (i : Nat) (b : Book),
      (SqliteStorage.importCsv (SqliteStorage.exportCsv st)
          emptyStore).1.books[i]? = some b → b.id = 1 + i := by
  have hwfs : ∀ b ∈ SqliteStorage.list st none, GoodBook b := by
    intro b hb
    apply hwf
    rw [list_none] at hb
    exact ((sortById_perm st.books).mem_iff).mp hb
  have hnl : ∀ b ∈ SqliteStorage.list st none,
      '\n' ∉ (SqliteStorage.lineOf b).toList := by
    intro b hb
    obtain ⟨_, _, _, _, _, _, ht, ha, hi⟩ := hwfs b hb
    exact lineOf_no_newline ht ha hi
  have himp : SqliteStorage.importCsv (SqliteStorage.exportCsv st) emptyStore =
      (SqliteStorage.importRows (fun _ => false)
        ((SqliteStorage.list st none).map
          (fun b => (SqliteStorage.lineOf b).toList)) 0 emptyStore, true) := by
    rw [SqliteStorage.importCsv, importCsvF_cons (getLines_exportCsv st hnl),
      if_pos (by decide)]
  rw [himp, importRows_append _ _ _ hwfs]
  refine ⟨rfl, ?_, ?_⟩
  · show ((([] : List Book) ++
      reassignFrom 1 (SqliteStorage.list st none)).map stripId).Perm _
    rw [List.nil_append, reassignFrom_map_stripId, list_none]
    exact (sortById_perm st.books).map stripId
  · intro i b h
    simp only [emptyStore, List.nil_append] at h
    exact reassignFrom_getElem _ 1 i b h

theorem C3_witness :
    ((⟨8, [⟨7, "Title: \"Big, Book\"", "A", 10, 3, 1, "9780306406157"⟩],
        none⟩ : Store).books ≠ [] ∧
      ∀ b ∈ (⟨8, [⟨7, "Title: \"Big, Book\"", "A", 10, 3, 1,
        "9780306406157"⟩], none⟩ : Store).books, GoodBook b) ∧
    ((SqliteStorage.importCsv (SqliteStorage.exportCsv
        ⟨8, [⟨7, "Title: \"Big, Book\"", "A", 10, 3, 1, "9780306406157"⟩],
         none⟩) emptyStore).1.books.map stripId).Perm
      ((⟨8, [⟨7, "Title: \"Big, Book\"", "A", 10, 3, 1, "9780306406157"⟩],
         none⟩ : Store).books.map stripId) :=
  ⟨⟨by decide, by decide⟩,
   (C3_roundTrip _ (by decide) (by decide)).2.1⟩

/-- C3 claim, as stated (over every record set), is false: a record with
currentPage 5 greater than totalPages 3 — storable, since the data layer
does not enforce currentPage ≤ totalPages — comes back from the
export/import round-trip with currentPage clamped to 3, so the records
are not preserved. -/
theorem C3_counterexample :
    ¬ (((SqliteStorage.importCsv
          (SqliteStorage.exportCsv ⟨2, [⟨1, "A", "", 3, 5, 0, ""⟩], none⟩)
          emptyStore).1.books.map stripId).Perm
        ((⟨2, [⟨1, "A", "", 3, 5, 0, ""⟩], none⟩ : Store).books.map
          stripId)) := by
  decide

/-- C1: the claim is right about the intent (the import is wrapped in
`BEGIN TRANSACTION` / `COMMIT`), but the code never rolls back: a
storage failure on one INSERT is ignored and `COMMIT` still runs, so the
rows whose INSERTs succeeded stay committed.  Concretely, on a file with
two valid rows where the second INSERT fails, the import reports success
and exactly one of the two rows is in the table — neither all valid rows
nor none. -/
theorem C1_importCsv_not_atomic :
    ((SqliteStorage.importCsvF
        "id,title,author,totalPages,currentPage,status,isbn\n1,\"A\",\"\",10,0,0,\"\"\n2,\"B\",\"\",20,0,0,\"\"\n"
        (fun k => k == 1) emptyStore).2 = true) ∧
    ((SqliteStorage.importCsvF
        "id,title,author,totalPages,currentPage,status,isbn\n1,\"A\",\"\",10,0,0,\"\"\n2,\"B\",\"\",20,0,0,\"\"\n"
        (fun k => k == 1) emptyStore).1.books.map (fun b => b.title) =
      ["A"]) ∧
    ((getLines
        "id,title,author,totalPages,currentPage,status,isbn\n1,\"A\",\"\",10,0,0,\"\"\n2,\"B\",\"\",20,0,0,\"\"\n".toList).tail.countP
      (fun l => decide (7 ≤ (csvParse l).length)) = 2) := by
  decide

/-! ASCII case-folding lemmas (C9). -/

theorem toNat_ofNat_valid {n : Nat} (h : n.isValidChar) :
    (Char.ofNat n).toNat = n := by
  unfold Char.ofNat
  rw [dif_pos h]
  unfold Char.ofNatAux
  simp [Char.toNat, UInt32.toNat]

theorem charLe_iff {a b : Char} : a ≤ b ↔ a.toNat ≤ b.toNat := Iff.rfl

theorem charToNat_inj {a b : Char} (h : a.toNat = b.toNat) : a = b := by
  have := congrArg Char.ofNat h
  rwa [Char.ofNat_toNat, Char.ofNat_toNat] at this

theorem toNat_lowerC (c : Char) :
    (SqliteStorage.lowerC c).toNat =
      if 65 ≤ c.toNat ∧ c.toNat ≤ 90 then c.toNat + 32 else c.toNat := by
  have hcond : ('A' ≤ c ∧ c ≤ 'Z') ↔ (65 ≤ c.toNat ∧ c.toNat ≤ 90) :=
    and_congr charLe_iff charLe_iff
  unfold SqliteStorage.lowerC
  by_cases h : 65 ≤ c.toNat ∧ c.toNat ≤ 90
  · rw [if_pos (hcond.mpr h), if_pos h]
    exact toNat_ofNat_valid (Or.inl (by omega))
  · rw [if_neg (fun hh => h (hcond.mp hh)), if_neg h]

theorem lowerC_idem (c : Char) :
    SqliteStorage.lowerC (SqliteStorage.lowerC c) = SqliteStorage.lowerC c := by
  apply charToNat_inj
  by_cases h : 65 ≤ c.toNat ∧ c.toNat ≤ 90
  · have h1 : (SqliteStorage.lowerC c).toNat = c.toNat + 32 := by
      rw [toNat_lowerC, if_pos h]
    rw [toNat_lowerC, h1, if_neg (by omega)]
  · have h1 : (SqliteStorage.lowerC c).toNat = c.toNat := by
      rw [toNat_lowerC, if_neg h]
    rw [toNat_lowerC, h1, if_neg h]

theorem lowerC_eq_pct {c : Char} (h : SqliteStorage.lowerC c = '%') : c = '%' := by
  have ht := congrArg Char.toNat h
  rw [toNat_lowerC] at ht
  have hp : ('%' : Char).toNat = 37 := rfl
  by_cases hc : 65 ≤ c.toNat ∧ c.toNat ≤ 90
  · rw [if_pos hc] at ht; omega
  · rw [if_neg hc] at ht
    exact charToNat_inj (by rw [ht, hp])

theorem lowerC_eq_und {c : Char} (h : SqliteStorage.lowerC c = '_') : c = '_' := by
  have ht := congrArg Char.toNat h
  rw [toNat_lowerC] at ht
  have hp : ('_' : Char).toNat = 95 := rfl
  by_cases hc : 65 ≤ c.toNat ∧ c.toNat ≤ 90
  · rw [if_pos hc] at ht; omega
  · rw [if_neg hc] at ht
    exact charToNat_inj (by rw [ht, hp])

theorem lowerL_lowered (l : List Char) :
    ∀ c ∈ SqliteStorage.lowerL l, SqliteStorage.lowerC c = c := by
  intro c hc
  obtain ⟨d, _, rfl⟩ := List.mem_map.mp hc
  exact lowerC_idem d

/-! SQLite `LIKE` matcher lemmas (C9). -/

theorem likeMatchAux_succ_cons (f : Nat) (a : Char) (p s : List Char) :
    SqliteStorage.likeMatchAux (f+1) (a :: p) s =
      if a = '%' then
        SqliteStorage.likeMatchAux f p s ||
          (match s with
           | [] => false
           | _ :: s' => SqliteStorage.likeMatchAux f (a :: p) s')
      else if a = '_' then
        match s with
        | [] => false
        | _ :: s' => SqliteStorage.likeMatchAux f p s'
      else
        match s with
        | [] => false
        | c :: s' =>
          (SqliteStorage.lowerC a = SqliteStorage.lowerC c) &&
            SqliteStorage.likeMatchAux f p s' := rfl

theorem likeMatchAux_pct_nil (f : Nat) (p : List Char) :
    SqliteStorage.likeMatchAux (f+1) ('%' :: p) [] =
      (SqliteStorage.likeMatchAux f p [] || false) := rfl

theorem likeMatchAux_pct_cons (f : Nat) (p : List Char) (c : Char)
    (s : List Char) :
    SqliteStorage.likeMatchAux (f+1) ('%' :: p) (c :: s) =
      (SqliteStorage.likeMatchAux f p (c :: s) ||
        SqliteStorage.likeMatchAux f ('%' :: p) s) := rfl

theorem likeMatchAux_und_nil (f : Nat) (p : List Char) :
    SqliteStorage.likeMatchAux (f+1) ('_' :: p) [] = false := rfl

theorem likeMatchAux_und_cons (f : Nat) (p : List Char) (c : Char)
    (s : List Char) :
    SqliteStorage.likeMatchAux (f+1) ('_' :: p) (c :: s) =
      SqliteStorage.likeMatchAux f p s := rfl

theorem likeMatchAux_lit_nil {a : Char} (ha : a ≠ '%') (hu : a ≠ '_')
    (f : Nat) (p : List Char) :
    SqliteStorage.likeMatchAux (f+1) (a :: p) [] = false := by
  rw [likeMatchAux_succ_cons, if_neg ha, if_neg hu]

theorem likeMatchAux_lit_cons {a : Char} (ha : a ≠ '%') (hu : a ≠ '_')
    (f : Nat) (p : List Char) (c : Char) (s : List Char) :
    SqliteStorage.likeMatchAux (f+1) (a :: p) (c :: s) =
      (decide (SqliteStorage.lowerC a = SqliteStorage.lowerC c) &&
        SqliteStorage.likeMatchAux f p s) := by
  rw [likeMatchAux_succ_cons, if_neg ha, if_neg hu]

theorem likeMatchAux_congr :
    ∀ (f g : Nat) (p s : List Char),
      p.length + s.length < f → p.length + s.length < g →
      SqliteStorage.likeMatchAux f p s = SqliteStorage.likeMatchAux g p s := by
  intro f
  induction f with
  | zero => intro g p s hf hg; omega
  | succ f ih =>
    intro g p s hf hg
    obtain ⟨g', rfl⟩ : ∃ g', g = g' + 1 := ⟨g - 1, by omega⟩
    cases p with
    | nil => rfl
    | cons a p' =>
      simp only [List.length_cons] at hf hg
      by_cases ha : a = '%'
      · subst ha
        cases s with
        | nil =>
          rw [likeMatchAux_pct_nil, likeMatchAux_pct_nil,
            ih g' p' [] (by simp; omega) (by simp; omega)]
        | cons c s' =>
          simp only [List.length_cons] at hf hg
          rw [likeMatchAux_pct_cons, likeMatchAux_pct_cons,
            ih g' p' (c :: s') (by simp; omega) (by simp; omega),
            ih g' ('%' :: p') s' (by simp; omega) (by simp; omega)]
      · by_cases hu : a = '_'
        · subst hu
          cases s with
          | nil => rw [likeMatchAux_und_nil, likeMatchAux_und_nil]
          | cons c s' =>
            simp only [List.length_cons] at hf hg
            rw [likeMatchAux_und_cons, likeMatchAux_und_cons,
              ih g' p' s' (by omega) (by omega)]
        · cases s with
          | nil => rw [likeMatchAux_lit_nil ha hu, likeMatchAux_lit_nil ha hu]
          | cons c s' =>
            simp only [List.length_cons] at hf hg
            rw [likeMatchAux_lit_cons ha hu, likeMatchAux_lit_cons ha hu,
              ih g' p' s' (by omega) (by omega)]

theorem likeMatch_eval_nil (s : List Char) :
    SqliteStorage.likeMatch [] s = s.isEmpty := rfl

theorem likeMatch_pct_nil (p : List Char) :
    SqliteStorage.likeMatch ('%' :: p) [] = SqliteStorage.likeMatch p [] := by
  rw [SqliteStorage.likeMatch, SqliteStorage.likeMatch, likeMatchAux_pct_nil,
    Bool.or_false]
  exact likeMatchAux_congr _ _ p [] (by simp) (by simp)

theorem likeMatch_pct_cons (p : List Char) (c : Char) (s : List Char) :
    SqliteStorage.likeMatch ('%' :: p) (c :: s) =
      (SqliteStorage.likeMatch p (c :: s) ||
        SqliteStorage.likeMatch ('%' :: p) s) := by
  rw [SqliteStorage.likeMatch, SqliteStorage.likeMatch, SqliteStorage.likeMatch,
    likeMatchAux_pct_cons]
  rw [likeMatchAux_congr (('%' :: p).length + (c :: s).length)
      (p.length + (c :: s).length + 1) p (c :: s)
      (by simp only [List.length_cons]; omega) (by omega),
    likeMatchAux_congr (('%' :: p).length + (c :: s).length)
      (('%' :: p).length + s.length + 1) ('%' :: p) s
      (by simp only [List.length_cons]; omega) (by omega)]

theorem likeMatch_lit_nil {a : Char} (ha : a ≠ '%') (hu : a ≠ '_')
    (p : List Char) :
    SqliteStorage.likeMatch (a :: p) [] = false := by
  rw [SqliteStorage.likeMatch, likeMatchAux_lit_nil ha hu]

theorem likeMatch_lit_cons {a : Char} (ha : a ≠ '%') (hu : a ≠ '_')
    (p : List Char) (c : Char) (s : List Char) :
    SqliteStorage.likeMatch (a :: p) (c :: s) =
      (decide (SqliteStorage.lowerC a = SqliteStorage.lowerC c) &&
        SqliteStorage.likeMatch p s) := by
  rw [SqliteStorage.likeMatch, SqliteStorage.likeMatch,
    likeMatchAux_lit_cons ha hu]
  rw [likeMatchAux_congr ((a :: p).length + (c :: s).length)
      (p.length + s.length + 1) p s (by simp; omega) (by omega)]

theorem likeMatch_pct_iff (p s : List Char) :
    SqliteStorage.likeMatch ('%' :: p) s = true ↔
      ∃ t, t <:+ s ∧ SqliteStorage.likeMatch p t = true := by
  induction s with
  | nil =>
    rw [likeMatch_pct_nil]
    constructor
    · intro h; exact ⟨[], List.suffix_refl _, h⟩
    · rintro ⟨t, hts, htm⟩
      rw [List.suffix_nil.mp hts] at htm
      exact htm
  | cons c s' ih =>
    rw [likeMatch_pct_cons, Bool.or_eq_true, ih]
    constructor
    · rintro (h | ⟨t, hts, htm⟩)
      · exact ⟨c :: s', List.suffix_refl _, h⟩
      · exact ⟨t, hts.trans (List.suffix_cons c s'), htm⟩
    · rintro ⟨t, hts, htm⟩
      rcases List.suffix_cons_iff.mp hts with rfl | hts
      · exact Or.inl htm
      · exact Or.inr ⟨t, hts, htm⟩

theorem likeMatch_lit_iff (q : List Char)
    (hq : ∀ c ∈ q, c ≠ '%' ∧ c ≠ '_') (hlow : ∀ c ∈ q, SqliteStorage.lowerC c = c) :
    ∀ s : List Char, (∀ c ∈ s, SqliteStorage.lowerC c = c) →
      (SqliteStorage.likeMatch (q ++ ['%']) s = true ↔ q <+: s) := by
  induction q with
  | nil =>
    intro s hs
    rw [List.nil_append]
    constructor
    · intro _; exact List.nil_prefix
    · intro _
      induction s with
      | nil => rfl
      | cons c s' ihs =>
        rw [likeMatch_pct_cons]
        rw [Bool.or_eq_true]
        exact Or.inr (ihs (fun d hd => hs d (List.mem_cons_of_mem _ hd))
          List.nil_prefix)
  | cons a q' ih =>
    intro s hs
    obtain ⟨ha1, ha2⟩ := hq a (List.mem_cons_self _ _)
    cases s with
    | nil =>
      rw [List.cons_append, likeMatch_lit_nil ha1 ha2]
      simp [List.prefix_nil]
    | cons c s' =>
      rw [List.cons_append, likeMatch_lit_cons ha1 ha2, Bool.and_eq_true,
        decide_eq_true_iff,
        ih (fun d hd => hq d (List.mem_cons_of_mem _ hd))
          (fun d hd => hlow d (List.mem_cons_of_mem _ hd)) s'
          (fun d hd => hs d (List.mem_cons_of_mem _ hd)),
        hlow a (List.mem_cons_self _ _), hs c (List.mem_cons_self _ _),
        List.cons_prefix_cons]

theorem likeMatch_infix (q s : List Char)
    (hq : ∀ c ∈ q, c ≠ '%' ∧ c ≠ '_')
    (hlowq : ∀ c ∈ q, SqliteStorage.lowerC c = c)
    (hlows : ∀ c ∈ s, SqliteStorage.lowerC c = c) :
    (SqliteStorage.likeMatch ('%' :: (q ++ ['%'])) s = true ↔ q <:+: s) := by
  rw [likeMatch_pct_iff]
  constructor
  · rintro ⟨t, hts, htm⟩
    exact List.infix_iff_prefix_suffix.mpr
      ⟨t, (likeMatch_lit_iff q hq hlowq t
        (fun c hc => hlows c (hts.subset hc))).mp htm, hts⟩
  · intro h
    obtain ⟨t, hpt, hts⟩ := List.infix_iff_prefix_suffix.mp h
    exact ⟨t, hts, (likeMatch_lit_iff q hq hlowq t
      (fun c hc => hlows c (hts.subset hc))).mpr hpt⟩

theorem lowerL_pat (q : List Char) :
    SqliteStorage.lowerL ('%' :: q ++ ['%']) =
      '%' :: (SqliteStorage.lowerL q ++ ['%']) := by
  simp only [SqliteStorage.lowerL, List.map_cons, List.map_append, List.map_nil]
  rfl

theorem lowerL_no_wildcards {q : List Char} (h1 : '%' ∉ q) (h2 : '_' ∉ q) :
    ∀ c ∈ SqliteStorage.lowerL q, c ≠ '%' ∧ c ≠ '_' := by
  intro c hc
  obtain ⟨d, hd, rfl⟩ := List.mem_map.mp hc
  constructor
  · intro he; exact h1 ((lowerC_eq_pct he) ▸ hd)
  · intro he; exact h2 ((lowerC_eq_und he) ▸ hd)

theorem search_eq (st : Store) (q : String) :
    SqliteStorage.search st q = (sortById st.books).filter (fun b =>
      SqliteStorage.likeMatch ('%' :: (SqliteStorage.lowerL q.toList ++ ['%']))
        (SqliteStorage.lowerL b.title.toList) ||
      SqliteStorage.likeMatch ('%' :: (SqliteStorage.lowerL q.toList ++ ['%']))
        (SqliteStorage.lowerL b.author.toList)) := by
  simp only [SqliteStorage.search]
  rw [lowerL_pat]

theorem search_pred_eq (q : String) (h1 : '%' ∉ q.toList)
    (h2 : '_' ∉ q.toList) (b : Book) :
    (SqliteStorage.likeMatch ('%' :: (SqliteStorage.lowerL q.toList ++ ['%']))
        (SqliteStorage.lowerL b.title.toList) ||
     SqliteStorage.likeMatch ('%' :: (SqliteStorage.lowerL q.toList ++ ['%']))
        (SqliteStorage.lowerL b.author.toList)) =
      (decide (containsCI q b.title) || decide (containsCI q b.author)) := by
  have hq := lowerL_no_wildcards h1 h2
  have hlq := lowerL_lowered q.toList
  have hfield : ∀ s : String,
      SqliteStorage.likeMatch ('%' :: (SqliteStorage.lowerL q.toList ++ ['%']))
        (SqliteStorage.lowerL s.toList) = decide (containsCI q s) := by
    intro s
    have hiff := likeMatch_infix (SqliteStorage.lowerL q.toList)
      (SqliteStorage.lowerL s.toList) hq hlq (lowerL_lowered s.toList)
    by_cases hP : containsCI q s
    · rw [hiff.mpr hP, decide_eq_true hP]
    · have hfalse : SqliteStorage.likeMatch
          ('%' :: (SqliteStorage.lowerL q.toList ++ ['%']))
          (SqliteStorage.lowerL s.toList) = false :=
        Bool.eq_false_iff.mpr (fun hh => hP (hiff.mp hh))
      rw [hfalse, decide_eq_false hP]
  rw [hfield b.title, hfield b.author]

/-- C9 amended: for every query string containing no SQL LIKE wildcard
(`%` or `_`), `search` returns exactly the records whose title or author
contains the query as a case-insensitive (ASCII) substring, ordered by
id ascending; in particular `search "tol"` matches a record titled
"The Hobbit" with author "J.R.R. Tolkien". -/
theorem C9_search :
    (∀ (st : Store) (q : String), '%' ∉ q.toList → '_' ∉ q.toList →
      List.Sorted idLe (SqliteStorage.search st q) ∧
      (SqliteStorage.search st q).Perm (st.books.filter (fun b =>
        decide (containsCI q b.title) || decide (containsCI q b.author)))) ∧
    (⟨1, "The Hobbit", "J.R.R. Tolkien", 310, 0, 0, ""⟩ : Book) ∈
      SqliteStorage.search
        ⟨2, [⟨1, "The Hobbit", "J.R.R. Tolkien", 310, 0, 0, ""⟩], none⟩
        "tol" := by
  constructor
  · intro st q h1 h2
    have hrw : SqliteStorage.search st q = (sortById st.books).filter (fun b =>
        decide (containsCI q b.title) || decide (containsCI q b.author)) := by
      rw [search_eq]
      exact List.filter_congr (fun b _ => search_pred_eq q h1 h2 b)
    constructor
    · rw [hrw]
      exact List.Pairwise.filter _ (sortById_sorted st.books)
    · rw [hrw]
      exact (sortById_perm st.books).filter _
  · decide

theorem C9_witness :
    ('%' ∉ "tol".toList ∧ '_' ∉ "tol".toList) ∧
    (SqliteStorage.search
        ⟨2, [⟨1, "The Hobbit", "J.R.R. Tolkien", 310, 0, 0, ""⟩], none⟩
        "tol").Perm
      ((⟨2, [⟨1, "The Hobbit", "J.R.R. Tolkien", 310, 0, 0, ""⟩],
         none⟩ : Store).books.filter (fun b =>
          decide (containsCI "tol" b.title) ||
          decide (containsCI "tol" b.author))) :=
  ⟨⟨by decide, by decide⟩,
   (C9_search.1 ⟨2, [⟨1, "The Hobbit", "J.R.R. Tolkien", 310, 0, 0, ""⟩], none⟩
     "tol" (by decide) (by decide)).2⟩

/-- C9 claim, as stated (for every query string), is false: the query is
pasted into the LIKE pattern unescaped, so a query containing a wildcard
stops meaning a literal substring.  `search "%"` returns a record whose
title "abc" and empty author contain no '%' at all. -/
theorem C9_counterexample :
    (⟨1, "abc", "", 5, 0, 0, ""⟩ : Book) ∈
      SqliteStorage.search ⟨2, [⟨1, "abc", "", 5, 0, 0, ""⟩], none⟩ "%" ∧
    ¬ containsCI "%" "abc" ∧ ¬ containsCI "%" "" := by
  decide

end BookTracer

